import Mathlib

/-!
# NoteWizard — verification of the spec against the source

Shallow embedding of the NoteWizard rich-text note editor
(`main.py`, `textedit.py`).  The application is a thin orchestration layer
over the Qt document/view framework, so the embedding models:

* the pure data flow of the application's own functions (`load`,
  `maybe_save`, `file_save`, `file_save_as`, `file_open`, `file_new`,
  `closeEvent`, `file_print_pdf`, `text_size`, the tree-view actions, and
  the CLI bootstrap), translated statement by statement from the source;
* framework calls as oracles: results of `QFile.exists`, `QFile.open`,
  `QMimeDatabase.mimeTypeForFileNameAndData`, `bytes.decode('utf8')`,
  dialog outcomes and `QTextDocumentWriter.write` are inputs (a `FileEnv`
  record or explicit arguments), while the *configuration* the application
  pushes into framework objects (dialog MIME filters, default suffixes,
  status-bar messages, writer/printer invocations) is recorded in an
  event trace;
* the note-tree model.  The class `TreeModel` is imported from a module
  `treemodel` that is not part of the sources available here, so the tree
  structure and its standard insert/remove row/column operations are
  modelled from the spec ("each node has a sequence of column values and
  an ordered set of child nodes", "standard row/column insert-remove-data
  operations"); the UI-level handlers (`insert_row`, `insert_child`, ...)
  are translated from `textedit.py` itself.
-/

/-! ## Generic helpers -/

/-- Python `list.insert(i, x)` for a non-negative index: insert before
position `i`, clamping to the end of the list (Python clamps, it never
fails on a large index). -/
def pyInsert (i : Nat) (x : α) (l : List α) : List α :=
  l.take i ++ x :: l.drop i

/-- Characters Python's `str.strip()` removes (ASCII whitespace;
the model does not cover the exotic Unicode whitespace code points). -/
def isPyWs (c : Char) : Bool :=
  c = ' ' || c = '\t' || c = '\n' || c = '\r' || c = '\x0b' || c = '\x0c'

/-- Python `str.strip()`. -/
def pyStrip (s : List Char) : List Char :=
  ((s.dropWhile isPyWs).reverse.dropWhile isPyWs).reverse

def isAsciiDigit (c : Char) : Bool := '0' ≤ c && c ≤ '9'

/-- ASCII lower-casing (as applied by `float()` to `inf`/`nan` spellings). -/
def asciiLower (c : Char) : Char :=
  if 'A' ≤ c && c ≤ 'Z' then Char.ofNat (c.toNat + 32) else c

/-- `s.startswith(p)`. -/
def pyStartsWith (s p : String) : Bool :=
  p.toList.isPrefixOf s.toList

/-- `QDir.toNativeSeparators`: the identity on non-Windows platforms
(the separators of the model are `/`). -/
def toNativeSeparators (s : String) : String := s

/-- The file-name component of a path (`QFileInfo(fileName).fileName()`):
everything after the last `/`. -/
def fileNameComponent (s : String) : String :=
  String.mk ((s.toList.reverse.takeWhile (fun c => c ≠ '/')).reverse)

/-- `QUrl.adjusted(QUrl.RemoveFilename)`: strip everything after the last
`/` of the URL string. -/
def removeFilename (u : String) : String :=
  String.mk ((u.toList.reverse.dropWhile (fun c => c ≠ '/')).reverse)

/-! ## Python `float()` (model)

`text_size` converts the combo-box string with a bare `float(p)`.  The model
keeps the parsed decimal value exactly, as a sign, a decimal mantissa and a
power of ten; `inf` and `nan` spellings are represented symbolically.  (The
model does not round to binary double precision: rounding only matters for
extreme exponents, which none of the claims about `text_size` involve.  It
also restricts digits to ASCII, while CPython additionally accepts Unicode
decimal digits.) -/

inductive PyFloat where
  /-- value `(-1)^neg * mantissa * 10^exp10` -/
  | num (neg : Bool) (mantissa : Nat) (exp10 : Int)
  | inf (neg : Bool)
  | nan
deriving DecidableEq, Repr

/-- Python `x > 0` on the parsed float. -/
def PyFloat.gtZero : PyFloat → Bool
  | .num neg m _ => !neg && decide (m ≠ 0)
  | .inf neg => !neg
  | .nan => false

/-- Continue a digit run whose previous character was a digit: further
digits extend the run, and `_` is consumed only when a digit follows it —
so every consumed underscore sits between two digits (PEP 515).  Returns
the digits collected and the unconsumed rest. -/
def scanDigitsAux : List Char → List Char × List Char
  | [] => ([], [])
  | c :: rest =>
    if isAsciiDigit c then
      let (ds, r) := scanDigitsAux rest
      (c :: ds, r)
    else if c = '_' then
      match rest with
      | d :: rest2 =>
        if isAsciiDigit d then
          let (ds, r) := scanDigitsAux rest2
          (d :: ds, r)
        else ([], c :: rest)
      | [] => ([], [c])
    else ([], c :: rest)

/-- Scan a digit run: it must start with a digit (a leading `_` is not
consumed — CPython raises `ValueError` on `_1`), and inside the run `_`
may appear only between digits.  Returns the digits collected and the
unconsumed rest. -/
def scanDigits : List Char → List Char × List Char
  | [] => ([], [])
  | c :: rest =>
    if isAsciiDigit c then
      let (ds, r) := scanDigitsAux rest
      (c :: ds, r)
    else ([], c :: rest)

def digitsToNat (ds : List Char) : Nat :=
  ds.foldl (fun a c => a * 10 + (c.toNat - '0'.toNat)) 0

/-- Parse the decimal form (after the optional sign has been consumed):
`digits [. digits] [(e|E) [sign] digits]`, at least one digit in the
mantissa, nothing left over.  Returns `(mantissaDigits, exp10)`. -/
def parseDecimal (s : List Char) : Option (Nat × Int) :=
  let (ip, r1) := scanDigits s
  let (hasDot, fp, r2) :=
    match r1 with
    | '.' :: rest =>
      let (fp, r) := scanDigits rest
      (true, fp, r)
    | _ => (false, ([] : List Char), r1)
  if ip.isEmpty && fp.isEmpty then none
  else
    let _ := hasDot
    let m := digitsToNat (ip ++ fp)
    let fracLen : Int := (fp.length : Int)
    match r2 with
    | [] => some (m, -fracLen)
    | e :: rest =>
      if e = 'e' || e = 'E' then
        let (esgn, rest2) : Int × List Char :=
          match rest with
          | '+' :: r => (1, r)
          | '-' :: r => (-1, r)
          | r => (1, r)
        let (ed, r4) := scanDigits rest2
        if ed.isEmpty || !r4.isEmpty then none
        else some (m, esgn * (digitsToNat ed : Int) - fracLen)
      else none

/-- Python `float(s)`: `none` models an unhandled `ValueError`. -/
def pyFloat (s : String) : Option PyFloat :=
  let cs := pyStrip s.toList
  let (neg, cs2) :=
    match cs with
    | '+' :: r => (false, r)
    | '-' :: r => (true, r)
    | r => (false, r)
  let lower := cs2.map asciiLower
  if lower = "inf".toList || lower = "infinity".toList then some (.inf neg)
  else if lower = "nan".toList then some .nan
  else (parseDecimal cs2).map (fun p => .num neg p.1 p.2)

/-! ## Editor data model (`textedit.py`) -/

/-- `ABOUT`, `textedit.py`. -/
def ABOUT : String :=
  "NoteWizard aims to make the creation and organization of notes easier."

/-- `MIME_TYPES`, `textedit.py` line 25. -/
def MIME_TYPES : List String := ["text/html", "text/markdown", "text/plain"]

def odtMime : String := "application/vnd.oasis.opendocument.text"

/-- Application name set in `main.py` (`setApplicationName("NoteWizard")`). -/
def appName : String := "NoteWizard"

/-- How the document content was last set (`setHtml`, `setMarkdown`,
`setPlainText`, or cleared). -/
inductive Doc where
  | html (text : String)
  | markdown (text : String)
  | plain (text : String)
deriving DecidableEq, Repr

/-- The slice of the current character format the claims inspect
(`text_size` merges only the font point size). -/
structure CharFormat where
  pointSize : Option PyFloat
deriving DecidableEq, Repr

/-- Observable state of the `TextEdit` window's editor side. -/
structure EditorState where
  doc : Doc
  /-- `document().baseUrl()`; set only by the HTML branch of `load`. -/
  baseUrl : Option String
  modified : Bool
  /-- `self._file_name` -/
  fileName : String
  charFmt : CharFormat
  windowTitle : String
deriving DecidableEq, Repr

/-- Observable calls the application makes into the framework: dialog
configuration, status-bar messages, writer/printer invocations. -/
inductive Event where
  | statusMessage (msg : String)
  /-- `setMimeTypeFilters` on a file dialog. -/
  | dialogFilters (filters : List String)
  /-- `setDefaultSuffix` on a file dialog. -/
  | dialogDefaultSuffix (s : String)
  /-- `QTextDocumentWriter(fileName).write(document)` was invoked. -/
  | writerWrite (fileName : String)
  /-- `QPrinter` with `setOutputFormat(QPrinter.PdfFormat)` and
  `setOutputFileName(fileName)` received `document().print_`. -/
  | printerPdf (fileName : String)
  /-- the modified-document `QMessageBox.warning` prompt was shown. -/
  | msgBoxShown
deriving DecidableEq, Repr

/-- Results of the framework calls `load` makes for a given path:
`QFile.exists`, `QFile.open(ReadOnly)`, the MIME database lookup on the
file name and raw bytes, and the result of `data.data().decode('utf8')`
(`none` models a `UnicodeDecodeError`, raised by Python on bytes that are
not valid UTF-8). -/
structure FileEnv where
  fileExists : Bool
  openOk : Bool
  mimeName : String
  decoded : Option String
deriving DecidableEq, Repr

/-- `set_current_file_name` (`textedit.py` 438-445). -/
def set_current_file_name (fileName : String) (ed : EditorState) : EditorState :=
  let shownName := if fileName = "" then "untitled.txt" else fileNameComponent fileName
  { ed with
    fileName := fileName
    modified := false
    windowTitle := shownName ++ "[*] - " ++ appName }

/-- `TextEdit.load` (`textedit.py` 399-421).  Returns `.error ()` when the
unguarded `decode('utf8')` raises; otherwise the updated editor state and
the boolean result.  (`f[0] == ':'` is rendered as a starts-with test; the
two differ only for an empty path, and `QFile.exists("")` is false, so the
character access is never reached on an empty path.) -/
def load (env : FileEnv) (f : String) (ed : EditorState) :
    Except Unit (EditorState × Bool) :=
  if !env.fileExists then .ok (ed, false)
  else if !env.openOk then .ok (ed, false)
  else
    match env.decoded with
    | none => .error ()
    | some text =>
      let ed1 :=
        if env.mimeName = "text/html" then
          let fileUrl := if pyStartsWith f ":" then f else "file://" ++ f
          { ed with baseUrl := some (removeFilename fileUrl), doc := .html text }
        else if env.mimeName = "text/markdown" then
          { ed with doc := .markdown text }
        else
          { ed with doc := .plain text }
      .ok (set_current_file_name f ed1, true)

/-! ## The note-tree model

Modelled from the spec: the class `TreeModel` is imported from a module
`treemodel` that is not among the available sources; only its callers in
`textedit.py` are.  Per the spec, the structure is "a tree of note entries
...: each node has a sequence of column values and an ordered set of child
nodes, with parent/child relationships forming a tree rooted at a single
invisible root", exposing "standard row/column insert-remove-data
operations".  The root's column values double as the horizontal headers
(the model is constructed from a header list and a text resource).  The
UI-level handlers below (`TextEdit.insert_row` and friends) are translated
from `textedit.py` itself. -/

inductive TreeItem where
  | node (data : List (Option String)) (children : List TreeItem)

def TreeItem.data : TreeItem → List (Option String)
  | .node d _ => d

def TreeItem.children : TreeItem → List TreeItem
  | .node _ c => c

def TreeItem.columnCount (t : TreeItem) : Nat := t.data.length

def TreeItem.childCount (t : TreeItem) : Nat := t.children.length

mutual

/-- Number of items in the tree (the node itself plus all descendants). -/
def TreeItem.size : TreeItem → Nat
  | .node _ cs => 1 + TreeItem.sizeList cs

def TreeItem.sizeList : List TreeItem → Nat
  | [] => 0
  | t :: ts => TreeItem.size t + TreeItem.sizeList ts

end

mutual

/-- Every node of the tree carries exactly `c` column values.  (This is the
global form of the spec's "column count is consistent within a node's
siblings": all siblings — indeed all nodes — share one column count.) -/
def TreeItem.uniform (c : Nat) : TreeItem → Bool
  | .node d cs => d.length == c && TreeItem.uniformList c cs

def TreeItem.uniformList (c : Nat) : List TreeItem → Bool
  | [] => true
  | t :: ts => TreeItem.uniform c t && TreeItem.uniformList c ts

end

/-- Modelled from the spec: look the item up along a path of child row
indices (the item-model's row/parent addressing). -/
def TreeItem.getItem : List Nat → TreeItem → Option TreeItem
  | [], t => some t
  | i :: rest, .node _ cs =>
    match cs[i]? with
    | none => none
    | some c => TreeItem.getItem rest c

/-- Modelled from the spec: apply `f` to the item at `path`, rebuilding the
tree; `none` when the path is invalid or `f` reports failure (the framework
operation returned `False` and the tree is left unchanged by the caller). -/
def TreeItem.modifyAt : List Nat → (TreeItem → Option TreeItem) → TreeItem → Option TreeItem
  | [], f, t => f t
  | i :: rest, f, .node d cs =>
    match cs[i]? with
    | none => none
    | some c =>
      (TreeItem.modifyAt rest f c).map (fun c2 => TreeItem.node d (cs.set i c2))

mutual

/-- Modelled from the spec: insert one empty column value at `position` in
every node of the tree (standard item-model `insertColumns`, which keeps
the column count consistent across the whole tree); nodes where `position`
is out of range are left as they are. -/
def TreeItem.insertColumnRec (position : Nat) : TreeItem → TreeItem
  | .node d cs =>
    TreeItem.node (if position ≤ d.length then pyInsert position none d else d)
      (TreeItem.insertColumnRecList position cs)

def TreeItem.insertColumnRecList (position : Nat) : List TreeItem → List TreeItem
  | [] => []
  | t :: ts =>
    TreeItem.insertColumnRec position t :: TreeItem.insertColumnRecList position ts

end

mutual

/-- Modelled from the spec: delete the column value at `position` in every
node of the tree (standard item-model `removeColumns`). -/
def TreeItem.removeColumnRec (position : Nat) : TreeItem → TreeItem
  | .node d cs =>
    TreeItem.node
      (if position < d.length then d.take position ++ d.drop (position + 1) else d)
      (TreeItem.removeColumnRecList position cs)

def TreeItem.removeColumnRecList (position : Nat) : List TreeItem → List TreeItem
  | [] => []
  | t :: ts =>
    TreeItem.removeColumnRec position t :: TreeItem.removeColumnRecList position ts

end

/-- Modelled from the spec: `model.insertColumn(position)` — checked at the
root, then inserted tree-wide. -/
def TreeModel.insertColumn (position : Nat) (root : TreeItem) : Option TreeItem :=
  if position ≤ root.columnCount then some (root.insertColumnRec position) else none

/-- Modelled from the spec: `model.removeColumn(position)`. -/
def TreeModel.removeColumn (position : Nat) (root : TreeItem) : Option TreeItem :=
  if position + 1 ≤ root.columnCount then some (root.removeColumnRec position) else none

/-- Modelled from the spec: `model.insertRow(position, parent)` — insert one
fresh row (all column values empty, no children) at `position` among the
children of the item at `parentPath`; the new row is created with
`columns` column values. -/
def TreeModel.insertRowAt (root : TreeItem) (parentPath : List Nat)
    (position columns : Nat) : Option TreeItem :=
  root.modifyAt parentPath (fun t =>
    if position ≤ t.childCount then
      some (TreeItem.node t.data
        (pyInsert position (TreeItem.node (List.replicate columns none) []) t.children))
    else none)

/-- Modelled from the spec: `model.removeRow(position, parent)` — remove the
child at `position` of the item at `parentPath`; its whole subtree goes
with it ("a removed subtree's descendants are removed with it"). -/
def TreeModel.removeRowAt (root : TreeItem) (parentPath : List Nat)
    (position : Nat) : Option TreeItem :=
  root.modifyAt parentPath (fun t =>
    if position + 1 ≤ t.childCount then
      some (TreeItem.node t.data
        (t.children.take position ++ t.children.drop (position + 1)))
    else none)

/-- Modelled from the spec: `model.setData(index, value, EditRole)` — set
one column value of the item at `path`; out-of-range indices change
nothing. -/
def TreeModel.setDataAt (root : TreeItem) (path : List Nat) (column : Nat)
    (value : Option String) : TreeItem :=
  (root.modifyAt path (fun t =>
    some (TreeItem.node (t.data.set column value) t.children))).getD root

/-- Modelled from the spec: `model.headerData(column, Horizontal)` — the
root item's column value. -/
def TreeModel.headerData (root : TreeItem) (column : Nat) : Option String :=
  (root.data[column]?).getD none

/-- Modelled from the spec: `model.setHeaderData(column, Horizontal, value)`. -/
def TreeModel.setHeaderData (root : TreeItem) (column : Nat)
    (value : Option String) : TreeItem :=
  TreeItem.node (root.data.set column value) root.children

/-- Modelled from the spec: the model is "constructed once at window start
from a static bundled text resource" and a header list; the parse of the
resource text into child rows is internal to the missing `treemodel`
module and is abstracted as one row per line of the text. -/
def TreeModel.make (headers : List String) (text : String) : TreeItem :=
  TreeItem.node (headers.map some)
    ((text.splitOn "\n").map (fun line => TreeItem.node [some line] []))

/-- A `QModelIndex` as the tree view's selection model hands it to the
actions: the path of child row indices from the root (empty for the
invalid index) and the column.  For the invalid index `row()` and
`column()` are `-1` in Qt; the handlers below spell out what `-1` makes
each expression evaluate to. -/
structure MIdx where
  path : List Nat
  col : Nat

/-- `index.row() + 1` (`-1 + 1 = 0` for the invalid index). -/
def MIdx.rowPlusOne (ix : MIdx) : Nat :=
  match ix.path.getLast? with
  | some r => r + 1
  | none => 0

/-- `index.parent()`'s path. -/
def MIdx.parentPath (ix : MIdx) : List Nat := ix.path.dropLast

/-- The `for column in range(...)` body shared by `insert_row`:
`setData(model.index(row, column, parent), "[No data]")` for
`column = 0, ..., n-1`. -/
def setNoDataUpTo (root : TreeItem) (path : List Nat) : Nat → TreeItem
  | 0 => root
  | n + 1 =>
    TreeModel.setDataAt (setNoDataUpTo root path n) path n (some "[No data]")

/-- One iteration of `insert_child`'s column loop: `setData` then, if the
header is falsy (`None` or empty), `setHeaderData(column, "[No header]")`. -/
def childColumnStep (root : TreeItem) (path : List Nat) (column : Nat) : TreeItem :=
  let r := TreeModel.setDataAt root path column (some "[No data]")
  let h := TreeModel.headerData r column
  let falsy := match h with
    | none => true
    | some s => s = ""
  if falsy then TreeModel.setHeaderData r column (some "[No header]") else r

def childColumnsUpTo (root : TreeItem) (path : List Nat) : Nat → TreeItem
  | 0 => root
  | n + 1 => childColumnStep (childColumnsUpTo root path n) path n

/-- `TextEdit.insert_row` (`textedit.py` 817-831). -/
def TextEdit.insert_row (cur : MIdx) (root : TreeItem) : TreeItem :=
  let parent := cur.parentPath
  let r := cur.rowPlusOne
  match TreeModel.insertRowAt root parent r root.columnCount with
  | none => root
  | some root1 => setNoDataUpTo root1 (parent ++ [r]) root1.columnCount

/-- `TextEdit.insert_child` (`textedit.py` 780-803).  Note that when the
column insertion has happened but the row insertion fails, the handler
returns with the new column kept. -/
def TextEdit.insert_child (cur : MIdx) (root : TreeItem) : TreeItem :=
  let step1 :=
    if root.columnCount = 0 then TreeModel.insertColumn 0 root else some root
  match step1 with
  | none => root
  | some root1 =>
    match TreeModel.insertRowAt root1 cur.path 0 root1.columnCount with
    | none => root1
    | some root2 => childColumnsUpTo root2 (cur.path ++ [0]) root2.columnCount

/-- `TextEdit.insert_column` (`textedit.py` 805-815).
`currentIndex().column() + 1` is `0` for the invalid index. -/
def TextEdit.insert_column (cur : MIdx) (root : TreeItem) : TreeItem :=
  let column := if cur.path.isEmpty then 0 else cur.col + 1
  match TreeModel.insertColumn column root with
  | none => root
  | some root1 => TreeModel.setHeaderData root1 column (some "[No header]")

/-- `TextEdit.remove_column` (`textedit.py` 832-838).  For the invalid
index `column()` is `-1` and `removeColumn(-1)` fails. -/
def TextEdit.remove_column (cur : MIdx) (root : TreeItem) : TreeItem :=
  if cur.path.isEmpty then root
  else
    match TreeModel.removeColumn cur.col root with
    | none => root
    | some r => r

/-- `TextEdit.remove_row` (`textedit.py` 840-846).  For the invalid index
`row()` is `-1` and `removeRow(-1, ...)` fails. -/
def TextEdit.remove_row (cur : MIdx) (root : TreeItem) : TreeItem :=
  match cur.path.getLast? with
  | none => root
  | some r =>
    (TreeModel.removeRowAt root cur.path.dropLast r).getD root

/-- The five UI-triggered tree operations (`&Actions` menu). -/
inductive TreeOp where
  | insertRowOp (cur : MIdx)
  | insertColumnOp (cur : MIdx)
  | insertChildOp (cur : MIdx)
  | removeRowOp (cur : MIdx)
  | removeColumnOp (cur : MIdx)

def applyTreeOp : TreeOp → TreeItem → TreeItem
  | .insertRowOp cur, t => TextEdit.insert_row cur t
  | .insertColumnOp cur, t => TextEdit.insert_column cur t
  | .insertChildOp cur, t => TextEdit.insert_child cur t
  | .removeRowOp cur, t => TextEdit.remove_row cur t
  | .removeColumnOp cur, t => TextEdit.remove_column cur t

def applyTreeOps (ops : List TreeOp) (t : TreeItem) : TreeItem :=
  ops.foldl (fun t op => applyTreeOp op t) t

/-! ## Whole-application state and the file actions -/

/-- State shared by the file actions: the module-level list `MIME_TYPES`
(a mutable Python list), the note-tree model, the editor state, and the
trace of framework calls made so far. -/
structure World where
  mimeTypes : List String
  tree : TreeItem
  ed : EditorState
  events : List Event

/-- Editor state after `TextEdit.__init__` (which ends with
`set_current_file_name('')`). -/
def initEditor : EditorState :=
  set_current_file_name ""
    { doc := .plain ""
      baseUrl := none
      modified := false
      fileName := ""
      charFmt := { pointSize := none }
      windowTitle := "" }

/-- `TextEdit.__init__` (`textedit.py` 40-127), projected to the modelled
state: the tree model is constructed exactly here, from the header list
`["Notes"]` and the text of the bundled `default.txt` resource
(`file.read_text()`), and `MIME_TYPES` still has its module-level value. -/
def initWorld (defaultText : String) : World :=
  { mimeTypes := MIME_TYPES
    tree := TreeModel.make ["Notes"] defaultText
    ed := initEditor
    events := [] }

/-- `TextEdit.file_open` (`textedit.py` 453-466).  `dlg` is the file
dialog's outcome (`none` = not accepted, `some fn` = the selected file);
the dialog is configured with `setMimeTypeFilters(MIME_TYPES)` — the
module-level list as it stands now.  Propagates `load`'s
`UnicodeDecodeError` (there is no handler). -/
def file_open (dlg : Option String) (env : FileEnv) (w : World) :
    Except Unit World :=
  let w1 := { w with events := w.events ++ [Event.dialogFilters w.mimeTypes] }
  match dlg with
  | none => .ok w1
  | some fn =>
    let nativeFn := toNativeSeparators fn
    match load env fn w1.ed with
    | .error e => .error e
    | .ok (ed2, true) =>
      .ok { w1 with
            ed := ed2,
            events := w1.events ++ [Event.statusMessage ("Opened \"" ++ nativeFn ++ "\"")] }
    | .ok (ed2, false) =>
      .ok { w1 with
            ed := ed2,
            events := w1.events ++ [Event.statusMessage ("Could not open \"" ++ nativeFn ++ "\"")] }

/-- `TextEdit.file_save` / `TextEdit.file_save_as` (`textedit.py` 468-497).
The two call each other (`file_save` falls through to `file_save_as` for an
unset or resource file name; `file_save_as` tail-calls `file_save` after the
dialog), so the pair is modelled as one fuel-indexed loop; `none` is
exhausted fuel.  `tag = true` is `file_save`, `tag = false` is
`file_save_as`.  `dlg` is the save dialog's outcome and `writeOk` the
result of `QTextDocumentWriter.write(document)`.

In `file_save_as` the local name `mime_types` is the module-level list
`MIME_TYPES` itself (no copy is taken), so
`mime_types.insert(1, "application/vnd.oasis.opendocument.text")` mutates
the module-level list — reflected here by updating `World.mimeTypes`
before the dialog runs. -/
def save_loop : Nat → Bool → Option String → Bool → World → Option (Bool × World)
  | 0, _, _, _, _ => none
  | fuel + 1, true, dlg, writeOk, w =>
    if w.ed.fileName = "" || pyStartsWith w.ed.fileName ":/" then
      save_loop fuel false dlg writeOk w
    else
      let nativeFn := toNativeSeparators w.ed.fileName
      if writeOk then
        some (true,
          { w with
            ed := { w.ed with modified := false },
            events := w.events ++ [Event.writerWrite w.ed.fileName,
              Event.statusMessage ("Wrote \"" ++ nativeFn ++ "\"")] })
      else
        some (false,
          { w with
            events := w.events ++ [Event.writerWrite w.ed.fileName,
              Event.statusMessage ("Could not write to file \"" ++ nativeFn ++ "\"")] })
  | fuel + 1, false, dlg, writeOk, w =>
    let mts := pyInsert 1 odtMime w.mimeTypes
    let w1 := { w with
                mimeTypes := mts,
                events := w.events ++ [Event.dialogFilters mts,
                  Event.dialogDefaultSuffix "odt"] }
    match dlg with
    | none => some (false, w1)
    | some fn =>
      save_loop fuel true dlg writeOk { w1 with ed := set_current_file_name fn w1.ed }

/-- `TextEdit.file_save` entry point. -/
def file_save (fuel : Nat) (dlg : Option String) (writeOk : Bool) (w : World) :
    Option (Bool × World) :=
  save_loop fuel true dlg writeOk w

/-- `TextEdit.file_save_as` entry point. -/
def file_save_as (fuel : Nat) (dlg : Option String) (writeOk : Bool) (w : World) :
    Option (Bool × World) :=
  save_loop fuel false dlg writeOk w

/-- The three buttons of the unsaved-changes prompt
(`QMessageBox.Save | QMessageBox.Discard | QMessageBox.Cancel`). -/
inductive MBChoice where
  | save
  | discard
  | cancel
deriving DecidableEq, Repr

/-- `TextEdit.maybe_save` (`textedit.py` 423-436).  `choice` is the
button the user picks if the prompt is shown; `dlg`/`writeOk` feed the
`file_save` call of the Save branch. -/
def maybe_save (fuel : Nat) (choice : MBChoice) (dlg : Option String)
    (writeOk : Bool) (w : World) : Option (Bool × World) :=
  if !w.ed.modified then some (true, w)
  else
    let w1 := { w with events := w.events ++ [Event.msgBoxShown] }
    match choice with
    | .save => save_loop fuel true dlg writeOk w1
    | .cancel => some (false, w1)
    | .discard => some (true, w1)

/-- `TextEdit.closeEvent` (`textedit.py` 129-133): the close event is
accepted exactly when `maybe_save()` returns `True`.  The result pairs the
accepted flag with the world `maybe_save` left behind. -/
def closeEvent (fuel : Nat) (choice : MBChoice) (dlg : Option String)
    (writeOk : Bool) (w : World) : Option (Bool × World) :=
  match maybe_save fuel choice dlg writeOk w with
  | none => none
  | some (accepted, w1) => some (accepted, w1)

/-- `TextEdit.file_new` (`textedit.py` 447-451): clear the document and
reset the file name only when `maybe_save()` agrees. -/
def file_new (fuel : Nat) (choice : MBChoice) (dlg : Option String)
    (writeOk : Bool) (w : World) : Option World :=
  match maybe_save fuel choice dlg writeOk w with
  | none => none
  | some (true, w1) =>
    some { w1 with ed := set_current_file_name "" { w1.ed with doc := .plain "" } }
  | some (false, w1) => some w1

/-- `TextEdit.file_print_pdf` (`textedit.py` 516-530): a save dialog with
the single filter `application/pdf` and default suffix `pdf`; on accept the
document is printed through a `QPrinter` in `PdfFormat` to the chosen file
and an `Exported` status message is shown. -/
def file_print_pdf (dlg : Option String) (w : World) : World :=
  let w1 := { w with
              events := w.events ++ [Event.dialogFilters ["application/pdf"],
                Event.dialogDefaultSuffix "pdf"] }
  match dlg with
  | none => w1
  | some fn =>
    { w1 with
      events := w1.events ++ [Event.printerPdf fn,
        Event.statusMessage ("Exported \"" ++ toNativeSeparators fn ++ "\"")] }

/-- `merge_format_on_word_or_selection` (`textedit.py` 749-754), restricted
to the one format property the claims track: merging a format that holds
only a font point size overrides that property of the current character
format. -/
def merge_point_size (v : PyFloat) (ed : EditorState) : EditorState :=
  { ed with charFmt := { pointSize := some v } }

/-- `TextEdit.text_size` (`textedit.py` 557-563): `point_size = float(p)`
with no guard — `.error ()` models the `ValueError` escaping the slot —
then the merge happens only for `point_size > 0`. -/
def text_size (p : String) (ed : EditorState) : Except Unit EditorState :=
  match pyFloat p with
  | none => .error ()
  | some v => .ok (if v.gtZero then merge_point_size v ed else ed)

/-! ## Application bootstrap (`main.py`) -/

/-- The argument parser of `SetupWidget.__init__`: one positional argument
`file` with `nargs='?'` — zero or one positional is accepted, more is an
argparse error (`unrecognized arguments`). -/
def parse_file_arg : List String → Except String (Option String)
  | [] => .ok none
  | [a] => .ok (some a)
  | _ :: _ :: _ => .error "unrecognized arguments"

/-- `main.py` line 41:
`file = widget.options.file if widget.options.file else ":/example.html"`
(Python truthiness: both `None` and the empty string fall back). -/
def startup_file : Option String → String
  | some f => if f = "" then ":/example.html" else f
  | none => ":/example.html"

/-- The path `__main__` hands to `mw.load` for a given positional-argument
list. -/
def main_load_path (args : List String) : Except String String :=
  (parse_file_arg args).map startup_file

/-! ## Claims about the bootstrap and the editor file operations -/

/-- Claim C1: the command line accepts exactly one optional positional
file-path argument (zero positionals parse to `none`, one parses to
itself, two or more are an argparse error), and when the argument is
absent the path handed to `mw.load` is the bundled sample document
`:/example.html`. -/
theorem claim_C1_cli_default :
    parse_file_arg [] = .ok none ∧
    main_load_path [] = .ok ":/example.html" ∧
    startup_file none = ":/example.html" ∧
    (∀ a : String, parse_file_arg [a] = .ok (some a)) ∧
    (∀ (a b : String) (l : List String),
      parse_file_arg (a :: b :: l) = .error "unrecognized arguments") :=
  ⟨rfl, rfl, rfl, fun _ => rfl, fun _ _ _ => rfl⟩

/-- Claim C10: `text_size` parses with an unguarded `float()`: every string
the parser rejects makes the slot raise an unhandled `ValueError`
(`.error ()`), and every parsed value that is not strictly positive leaves
the editor state — in particular the document's character format —
unchanged. -/
theorem claim_C10_text_size :
    (∀ (p : String) (ed : EditorState),
      pyFloat p = none → text_size p ed = .error ()) ∧
    (∀ (p : String) (v : PyFloat) (ed : EditorState),
      pyFloat p = some v → v.gtZero = false → text_size p ed = .ok ed) := by
  constructor
  · intro p ed h
    simp [text_size, h]
  · intro p v ed h hv
    simp [text_size, h, hv]

/-- Witness for C10: `"12pt"` (a string the size combo box can hold, since
it is editable) is rejected by `float()` and raises, as are the
mis-underscored forms `"_12"` and `"1e_5"` that CPython rejects under
PEP 515; `"1_0"` (a legally underscored literal) still parses; `"0"`
parses to zero and leaves the state unchanged. -/
theorem claim_C10_text_size_witness :
    (pyFloat "12pt" = none ∧ text_size "12pt" initEditor = .error ()) ∧
    (pyFloat "_12" = none ∧ text_size "_12" initEditor = .error ()) ∧
    (pyFloat "1e_5" = none ∧ text_size "1e_5" initEditor = .error ()) ∧
    pyFloat "1_0" = some (.num false 10 0) ∧
    (pyFloat "0" = some (.num false 0 0) ∧ PyFloat.gtZero (.num false 0 0) = false ∧
      text_size "0" initEditor = .ok initEditor) := by
  have h1 : pyFloat "12pt" = none := by decide
  have h1b : pyFloat "_12" = none := by decide
  have h1c : pyFloat "1e_5" = none := by decide
  have h2 : pyFloat "0" = some (.num false 0 0) := by decide
  exact ⟨⟨h1, claim_C10_text_size.1 "12pt" initEditor h1⟩,
    ⟨h1b, claim_C10_text_size.1 "_12" initEditor h1b⟩,
    ⟨h1c, claim_C10_text_size.1 "1e_5" initEditor h1c⟩,
    by decide,
    ⟨h2, rfl, claim_C10_text_size.2 "0" (.num false 0 0) initEditor h2 rfl⟩⟩

/-- A file that exists and opens but whose bytes are not valid UTF-8
(for example a single `0xFF` byte): `data.data().decode('utf8')`
raises `UnicodeDecodeError`. -/
def undecodableEnv : FileEnv :=
  { fileExists := true, openOk := true, mimeName := "text/plain", decoded := none }

/-- Counterexample to claim C2 as stated: for a file that exists and can be
opened for reading, the claim says `load` returns `True`; but when the
file's bytes are not valid UTF-8 the unguarded `decode('utf8')` raises, so
`load` returns neither `True` nor `False`. -/
theorem claim_C2_counterexample :
    undecodableEnv.fileExists = true ∧ undecodableEnv.openOk = true ∧
    load undecodableEnv "/home/user/note.bin" initEditor = .error () :=
  ⟨rfl, rfl, rfl⟩

/-- Claim C2 (amended): `load f` returns `False` — leaving the editor state
unchanged — exactly when the file does not exist or cannot be opened for
reading; otherwise, provided the bytes decode as UTF-8, it returns `True`,
while undecodable bytes raise an unhandled `UnicodeDecodeError`; and
`file_open` reports the boolean outcome on the status bar (`Opened` on
`True`, `Could not open` on `False`). -/
theorem claim_C2_load_reports :
    ∀ (env : FileEnv) (f : String) (ed : EditorState),
      ((env.fileExists = false ∨ env.openOk = false) →
        load env f ed = .ok (ed, false)) ∧
      (∀ (ed2 : EditorState), load env f ed = .ok (ed2, false) →
        ed2 = ed ∧ (env.fileExists = false ∨ env.openOk = false)) ∧
      (∀ text, env.fileExists = true → env.openOk = true →
        env.decoded = some text → ∃ ed2, load env f ed = .ok (ed2, true)) ∧
      (env.fileExists = true → env.openOk = true → env.decoded = none →
        load env f ed = .error ()) ∧
      (∀ (w : World) (fn : String) (ed2 : EditorState),
        load env fn w.ed = .ok (ed2, true) →
        ∃ w2, file_open (some fn) env w = .ok w2 ∧ w2.ed = ed2 ∧
          w2.events = w.events ++ [Event.dialogFilters w.mimeTypes,
            Event.statusMessage ("Opened \"" ++ toNativeSeparators fn ++ "\"")]) ∧
      (∀ (w : World) (fn : String) (ed2 : EditorState),
        load env fn w.ed = .ok (ed2, false) →
        ∃ w2, file_open (some fn) env w = .ok w2 ∧ w2.ed = ed2 ∧
          w2.events = w.events ++ [Event.dialogFilters w.mimeTypes,
            Event.statusMessage ("Could not open \"" ++ toNativeSeparators fn ++ "\"")]) := by
  intro env f ed
  refine ⟨?_, ?_, ?_, ?_, ?_, ?_⟩
  · rintro (h | h) <;> cases hfe : env.fileExists <;> simp_all [load]
  · intro ed2 hl
    cases hfe : env.fileExists
    · simp [load, hfe] at hl
      exact ⟨hl.symm, Or.inl rfl⟩
    · cases hoo : env.openOk
      · simp [load, hfe, hoo] at hl
        exact ⟨hl.symm, Or.inr rfl⟩
      · cases hdec : env.decoded <;> simp [load, hfe, hoo, hdec] at hl
  · intro text hfe hoo hdec
    refine ⟨set_current_file_name f
      (if env.mimeName = "text/html" then
        { ed with
          baseUrl := some (removeFilename
            (if pyStartsWith f ":" = true then f else "file://" ++ f)),
          doc := .html text }
      else if env.mimeName = "text/markdown" then { ed with doc := .markdown text }
      else { ed with doc := .plain text }), ?_⟩
    simp [load, hfe, hoo, hdec]
  · intro hfe hoo hdec
    simp [load, hfe, hoo, hdec]
  · intro w fn ed2 hl
    refine ⟨{ w with
        ed := ed2,
        events := (w.events ++ [Event.dialogFilters w.mimeTypes]) ++
          [Event.statusMessage ("Opened \"" ++ toNativeSeparators fn ++ "\"")] },
      ?_, rfl, by simp⟩
    simp only [file_open, hl]
  · intro w fn ed2 hl
    refine ⟨{ w with
        ed := ed2,
        events := (w.events ++ [Event.dialogFilters w.mimeTypes]) ++
          [Event.statusMessage ("Could not open \"" ++ toNativeSeparators fn ++ "\"")] },
      ?_, rfl, by simp⟩
    simp only [file_open, hl]

/-- Witness for the amended C2: a concrete missing file returns `False`
with the state untouched, and a concrete readable markdown file returns
`True`. -/
theorem claim_C2_load_reports_witness :
    ((FileEnv.mk false true "text/plain" (some "x")).fileExists = false ∨
      (FileEnv.mk false true "text/plain" (some "x")).openOk = false) ∧
    load (FileEnv.mk false true "text/plain" (some "x")) "/tmp/gone.txt" initEditor =
      .ok (initEditor, false) ∧
    (FileEnv.mk true true "text/markdown" (some "# hi")).decoded = some "# hi" ∧
    (∃ ed2, load (FileEnv.mk true true "text/markdown" (some "# hi")) "/tmp/a.md" initEditor =
      .ok (ed2, true)) := by
  refine ⟨Or.inl rfl, ?_, rfl, ?_⟩
  · exact (claim_C2_load_reports (FileEnv.mk false true "text/plain" (some "x"))
      "/tmp/gone.txt" initEditor).1 (Or.inl rfl)
  · exact (claim_C2_load_reports (FileEnv.mk true true "text/markdown" (some "# hi"))
      "/tmp/a.md" initEditor).2.2.1 "# hi" rfl rfl rfl

/-- Claim C4: `load` performs no parsing of its own — its result is a
function only of the MIME-database verdict and the decoded text (the
framework-call results recorded in `FileEnv`), and it dispatches solely on
that verdict: `text/html` is set as HTML with the document base URL set to
the file's directory (the URL with its last component removed),
`text/markdown` as Markdown, and every other MIME type as plain text. -/
theorem claim_C4_mime_dispatch :
    ∀ (env : FileEnv) (f : String) (ed : EditorState) (text : String),
      env.fileExists = true → env.openOk = true → env.decoded = some text →
      (env.mimeName = "text/html" →
        load env f ed = .ok (set_current_file_name f
          { ed with
            baseUrl := some (removeFilename
              (if pyStartsWith f ":" = true then f else "file://" ++ f)),
            doc := .html text }, true)) ∧
      (env.mimeName = "text/markdown" →
        load env f ed = .ok (set_current_file_name f
          { ed with doc := .markdown text }, true)) ∧
      (env.mimeName ≠ "text/html" → env.mimeName ≠ "text/markdown" →
        load env f ed = .ok (set_current_file_name f
          { ed with doc := .plain text }, true)) ∧
      (∀ env2 : FileEnv, env2.fileExists = true → env2.openOk = true →
        env2.decoded = some text → env2.mimeName = env.mimeName →
        load env2 f ed = load env f ed) := by
  intro env f ed text hfe hoo hdec
  refine ⟨?_, ?_, ?_, ?_⟩
  · intro hm
    simp [load, hfe, hoo, hdec, hm]
  · intro hm
    simp [load, hfe, hoo, hdec, hm]
  · intro h1 h2
    simp [load, hfe, hoo, hdec, h1, h2]
  · intro env2 hfe2 hoo2 hdec2 hm2
    simp [load, hfe, hoo, hdec, hfe2, hoo2, hdec2, hm2]

/-- Witness for C4: a concrete markdown load. -/
theorem claim_C4_mime_dispatch_witness :
    (FileEnv.mk true true "text/markdown" (some "# hi")).mimeName = "text/markdown" ∧
    load (FileEnv.mk true true "text/markdown" (some "# hi")) "/tmp/a.md" initEditor =
      .ok (set_current_file_name "/tmp/a.md" { initEditor with doc := .markdown "# hi" }, true) :=
  ⟨rfl, (claim_C4_mime_dispatch (FileEnv.mk true true "text/markdown" (some "# hi"))
    "/tmp/a.md" initEditor "# hi" rfl rfl rfl).2.1 rfl⟩

/-- Claim C5: `file_save` falls through to `file_save_as` exactly when the
current file name is empty or names a resource (starts with `:/`);
otherwise it invokes the framework writer and returns its boolean result,
clearing the modified flag and showing `Wrote` exactly on success, and
showing `Could not write to file` with the editor state (so the modified
flag) untouched on failure. -/
theorem claim_C5_file_save :
    ∀ (fuel : Nat) (dlg : Option String) (writeOk : Bool) (w : World),
      ((w.ed.fileName = "" ∨ pyStartsWith w.ed.fileName ":/" = true) →
        file_save (fuel + 1) dlg writeOk w = file_save_as fuel dlg writeOk w) ∧
      (w.ed.fileName ≠ "" → pyStartsWith w.ed.fileName ":/" = false →
        file_save (fuel + 1) dlg writeOk w =
          some (writeOk,
            if writeOk then
              { w with
                ed := { w.ed with modified := false },
                events := w.events ++ [Event.writerWrite w.ed.fileName,
                  Event.statusMessage
                    ("Wrote \"" ++ toNativeSeparators w.ed.fileName ++ "\"")] }
            else
              { w with
                events := w.events ++ [Event.writerWrite w.ed.fileName,
                  Event.statusMessage
                    ("Could not write to file \"" ++
                      toNativeSeparators w.ed.fileName ++ "\"")] })) := by
  intro fuel dlg writeOk w
  constructor
  · intro h
    have hc : (decide (w.ed.fileName = "") || pyStartsWith w.ed.fileName ":/") = true := by
      rcases h with h | h <;> simp [h]
    simp [file_save, file_save_as, save_loop, hc]
  · intro h1 h2
    have hc : (decide (w.ed.fileName = "") || pyStartsWith w.ed.fileName ":/") = false := by
      simp [h1, h2]
    cases writeOk <;> simp [file_save, save_loop, hc]

/-- Witness for C5: from a world whose current file is the bundled
resource `:/example.html`, saving falls through to Save-As; from a world
with an ordinary file name and a succeeding writer, the writer result is
reported. -/
theorem claim_C5_file_save_witness :
    (pyStartsWith ":/example.html" ":/" = true ∧
      file_save 3 none true
        { mimeTypes := MIME_TYPES, tree := TreeModel.make ["Notes"] "",
          ed := { initEditor with fileName := ":/example.html" }, events := [] } =
      file_save_as 2 none true
        { mimeTypes := MIME_TYPES, tree := TreeModel.make ["Notes"] "",
          ed := { initEditor with fileName := ":/example.html" }, events := [] }) ∧
    ({ initEditor with fileName := "/tmp/a.md" }.fileName ≠ "" ∧
      pyStartsWith "/tmp/a.md" ":/" = false) := by
  refine ⟨⟨by decide, ?_⟩, by decide, by decide⟩
  exact (claim_C5_file_save 2 none true
    { mimeTypes := MIME_TYPES, tree := TreeModel.make ["Notes"] "",
      ed := { initEditor with fileName := ":/example.html" }, events := [] }).1
    (Or.inr (by decide))

/-- Claim C3: `maybe_save` returns `True` without showing the prompt when
the document is not modified; when it is modified the prompt is shown and
Cancel yields `False` (so `closeEvent` reports the close rejected and
`file_new` leaves the document unchanged), Discard yields `True`, and Save
yields whatever `file_save` returns; `closeEvent` accepts exactly the
`maybe_save` outcome. -/
theorem claim_C3_maybe_save :
    ∀ (fuel : Nat) (choice : MBChoice) (dlg : Option String) (writeOk : Bool) (w : World),
      (w.ed.modified = false →
        maybe_save fuel choice dlg writeOk w = some (true, w)) ∧
      (w.ed.modified = true →
        maybe_save fuel MBChoice.cancel dlg writeOk w =
          some (false, { w with events := w.events ++ [Event.msgBoxShown] }) ∧
        maybe_save fuel MBChoice.discard dlg writeOk w =
          some (true, { w with events := w.events ++ [Event.msgBoxShown] }) ∧
        maybe_save fuel MBChoice.save dlg writeOk w =
          file_save fuel dlg writeOk { w with events := w.events ++ [Event.msgBoxShown] }) ∧
      (∀ (b : Bool) (w2 : World),
        maybe_save fuel choice dlg writeOk w = some (b, w2) →
        closeEvent fuel choice dlg writeOk w = some (b, w2)) ∧
      (w.ed.modified = true →
        file_new fuel MBChoice.cancel dlg writeOk w =
          some { w with events := w.events ++ [Event.msgBoxShown] }) := by
  intro fuel choice dlg writeOk w
  refine ⟨?_, ?_, ?_, ?_⟩
  · intro h
    simp [maybe_save, h]
  · intro h
    refine ⟨?_, ?_, ?_⟩ <;> simp [maybe_save, file_save, h]
  · intro b w2 h
    simp [closeEvent, h]
  · intro h
    simp [file_new, maybe_save, h]

/-- Witness for C3: with an unmodified document `maybe_save` is `True` and
nothing is shown; with a modified document Cancel makes `file_new` keep the
world except for the prompt event. -/
theorem claim_C3_maybe_save_witness :
    (initWorld "t").ed.modified = false ∧
    maybe_save 1 MBChoice.cancel none true (initWorld "t") = some (true, initWorld "t") ∧
    ({ initWorld "t" with ed := { (initWorld "t").ed with modified := true } }).ed.modified = true ∧
    file_new 1 MBChoice.cancel none true
      { initWorld "t" with ed := { (initWorld "t").ed with modified := true } } =
      some { { initWorld "t" with ed := { (initWorld "t").ed with modified := true } } with
        events := ({ initWorld "t" with
          ed := { (initWorld "t").ed with modified := true } }).events ++ [Event.msgBoxShown] } := by
  refine ⟨rfl, ?_, rfl, ?_⟩
  · exact (claim_C3_maybe_save 1 MBChoice.cancel none true (initWorld "t")).1 rfl
  · exact (claim_C3_maybe_save 1 MBChoice.cancel none true
      { initWorld "t" with ed := { (initWorld "t").ed with modified := true } }).2.2.2 rfl

/-- The write branch of `file_save`: with a set, non-resource file name the
writer runs and its result is returned. -/
theorem save_loop_write_branch (fuel : Nat) (dlg : Option String) (writeOk : Bool)
    (w : World) (h1 : w.ed.fileName ≠ "") (h2 : pyStartsWith w.ed.fileName ":/" = false) :
    save_loop (fuel + 1) true dlg writeOk w =
      some (writeOk, { w with
        ed := if writeOk then { w.ed with modified := false } else w.ed,
        events := w.events ++ [Event.writerWrite w.ed.fileName,
          Event.statusMessage ((if writeOk then "Wrote \"" else "Could not write to file \"") ++
            toNativeSeparators w.ed.fileName ++ "\"")] }) := by
  have hc : (decide (w.ed.fileName = "") || pyStartsWith w.ed.fileName ":/") = false := by
    simp [h1, h2]
  cases writeOk <;> simp [save_loop, hc]

/-- Claim C6: the formats offered for persistence are exactly HTML,
Markdown, plain text and OpenDocument text — the save dialog's filter list
is exactly those four, with default suffix `odt` —, writing goes through
the framework writer (`QTextDocumentWriter`), and PDF export runs the
document through a framework printer in PDF output mode after a dialog
filtered to `application/pdf`. -/
theorem claim_C6_formats :
    ∀ (txt : String) (writeOk : Bool),
      MIME_TYPES = ["text/html", "text/markdown", "text/plain"] ∧
      (∃ w2, file_save_as 1 none writeOk (initWorld txt) = some (false, w2) ∧
        w2.events = [Event.dialogFilters
            ["text/html", odtMime, "text/markdown", "text/plain"],
          Event.dialogDefaultSuffix "odt"]) ∧
      (∀ (fuel : Nat) (fn : String) (w : World),
        fn ≠ "" → pyStartsWith fn ":/" = false →
        ∃ w2, file_save_as (fuel + 2) (some fn) writeOk w = some (writeOk, w2) ∧
          Event.writerWrite fn ∈ w2.events) ∧
      (∀ (w : World) (fn : String),
        (file_print_pdf (some fn) w).events =
          w.events ++ [Event.dialogFilters ["application/pdf"],
            Event.dialogDefaultSuffix "pdf", Event.printerPdf fn,
            Event.statusMessage ("Exported \"" ++ toNativeSeparators fn ++ "\"")]) := by
  intro txt writeOk
  refine ⟨rfl, ⟨_, rfl, rfl⟩, ?_, ?_⟩
  · intro fuel fn w hne hpre
    have step1 : file_save_as (fuel + 2) (some fn) writeOk w =
        save_loop (fuel + 1) true (some fn) writeOk
          { w with
            mimeTypes := pyInsert 1 odtMime w.mimeTypes,
            ed := set_current_file_name fn w.ed,
            events := w.events ++ [Event.dialogFilters (pyInsert 1 odtMime w.mimeTypes),
              Event.dialogDefaultSuffix "odt"] } := rfl
    have step2 := save_loop_write_branch fuel (some fn) writeOk
      { w with
        mimeTypes := pyInsert 1 odtMime w.mimeTypes,
        ed := set_current_file_name fn w.ed,
        events := w.events ++ [Event.dialogFilters (pyInsert 1 odtMime w.mimeTypes),
          Event.dialogDefaultSuffix "odt"] }
      (by simpa [set_current_file_name] using hne)
      (by simpa [set_current_file_name] using hpre)
    refine ⟨_, step1.trans step2, ?_⟩
    simp [set_current_file_name]
  · intro w fn
    simp [file_print_pdf]

/-- Witness for C6: a concrete Save-As with an ordinary file name routes
the document through the framework writer. -/
theorem claim_C6_formats_witness :
    ("/tmp/a.odt" ≠ "" ∧ pyStartsWith "/tmp/a.odt" ":/" = false) ∧
    (∃ w2, file_save_as 2 (some "/tmp/a.odt") true (initWorld "t") = some (true, w2) ∧
      Event.writerWrite "/tmp/a.odt" ∈ w2.events) :=
  ⟨⟨by decide, by decide⟩,
    (claim_C6_formats "t" true).2.2.1 0 "/tmp/a.odt" (initWorld "t") (by decide) (by decide)⟩

/-- One invocation of `file_save_as` in which the dialog is cancelled —
already enough to mutate the module-level `MIME_TYPES` list, since the
insertion happens before the dialog runs. -/
def saveAsStep (w : World) : World :=
  match file_save_as 1 none true w with
  | some (_, w2) => w2
  | none => w

theorem saveAsStep_mimeTypes (w : World) :
    (saveAsStep w).mimeTypes = pyInsert 1 odtMime w.mimeTypes := rfl

theorem count_pyInsert (a x : String) (i : Nat) (l : List String) :
    (pyInsert i x l).count a = l.count a + List.count a [x] := by
  have h : l.count a = (l.take i).count a + (l.drop i).count a := by
    rw [← List.count_append, List.take_append_drop]
  simp [pyInsert, List.count_append, List.count_cons, h]
  omega

/-- Claim C9: `file_save_as` is not idempotent on the module-level
`MIME_TYPES` list: each invocation inserts the OpenDocument entry at index
1 into the shared list again, so after `n` invocations the list holds `n`
copies of it, and the Open-file dialog — whose filters are exactly the
shared list of the moment — then shows those `n` copies. -/
theorem claim_C9_mime_aliasing :
    ∀ (txt : String) (n : Nat),
      ((saveAsStep^[n]) (initWorld txt)).mimeTypes.count odtMime = n ∧
      (∀ env, ∃ w2, file_open none env ((saveAsStep^[n]) (initWorld txt)) = .ok w2 ∧
        w2.events = ((saveAsStep^[n]) (initWorld txt)).events ++
          [Event.dialogFilters (((saveAsStep^[n]) (initWorld txt)).mimeTypes)]) := by
  intro txt n
  constructor
  · induction n with
    | zero => rfl
    | succ k ih =>
      rw [Function.iterate_succ_apply', saveAsStep_mimeTypes, count_pyInsert, ih]
      simp [List.count_cons]
  · intro env
    exact ⟨_, rfl, rfl⟩

/-- `file_save`/`file_save_as` never touch the note-tree model. -/
theorem save_loop_tree : ∀ (fuel : Nat) (tag : Bool) (dlg : Option String)
    (writeOk : Bool) (w : World) (b : Bool) (w2 : World),
    save_loop fuel tag dlg writeOk w = some (b, w2) → w2.tree = w.tree := by
  intro fuel
  induction fuel with
  | zero =>
    intro tag dlg writeOk w b w2 h
    simp [save_loop] at h
  | succ k ih =>
    intro tag dlg writeOk w b w2 h
    cases tag
    · simp only [save_loop] at h
      cases dlg with
      | none =>
        simp only [Option.some.injEq, Prod.mk.injEq] at h
        rw [← h.2]
      | some fn =>
        exact (ih true (some fn) writeOk _ b w2 h).trans rfl
    · simp only [save_loop] at h
      split at h
      · exact ih false dlg writeOk w b w2 h
      · split at h <;>
          { simp only [Option.some.injEq, Prod.mk.injEq] at h
            rw [← h.2] }

/-- `maybe_save` never touches the note-tree model. -/
theorem maybe_save_tree (fuel : Nat) (choice : MBChoice) (dlg : Option String)
    (writeOk : Bool) (w : World) (b : Bool) (w2 : World)
    (h : maybe_save fuel choice dlg writeOk w = some (b, w2)) : w2.tree = w.tree := by
  unfold maybe_save at h
  split at h
  · simp only [Option.some.injEq, Prod.mk.injEq] at h
    rw [← h.2]
  · cases choice <;> simp only at h
    · exact (save_loop_tree fuel true dlg writeOk _ b w2 h).trans rfl
    · simp only [Option.some.injEq, Prod.mk.injEq] at h
      rw [← h.2]
    · simp only [Option.some.injEq, Prod.mk.injEq] at h
      rw [← h.2]

/-- Claim C8: the note-tree model is constructed exactly once, in the
main-window constructor, from the single header `Notes` and the bundled
text resource; every other modelled operation of the application — opening,
saving, save-as, the unsaved-changes flow, new-file, PDF export, and the
pure editor-state operations — leaves the tree component of the state
untouched, so the tree is subsequently mutated only by the five
UI-triggered tree operations. -/
theorem claim_C8_tree_lifecycle :
    ∀ (txt : String),
      (initWorld txt).tree = TreeModel.make ["Notes"] txt ∧
      (∀ (dlg : Option String) (env : FileEnv) (w w2 : World),
        file_open dlg env w = .ok w2 → w2.tree = w.tree) ∧
      (∀ (fuel : Nat) (tag : Bool) (dlg : Option String) (writeOk : Bool)
        (w : World) (b : Bool) (w2 : World),
        save_loop fuel tag dlg writeOk w = some (b, w2) → w2.tree = w.tree) ∧
      (∀ (fuel : Nat) (choice : MBChoice) (dlg : Option String) (writeOk : Bool)
        (w : World) (b : Bool) (w2 : World),
        maybe_save fuel choice dlg writeOk w = some (b, w2) → w2.tree = w.tree) ∧
      (∀ (fuel : Nat) (choice : MBChoice) (dlg : Option String) (writeOk : Bool)
        (w : World) (b : Bool) (w2 : World),
        closeEvent fuel choice dlg writeOk w = some (b, w2) → w2.tree = w.tree) ∧
      (∀ (fuel : Nat) (choice : MBChoice) (dlg : Option String) (writeOk : Bool)
        (w w2 : World),
        file_new fuel choice dlg writeOk w = some w2 → w2.tree = w.tree) ∧
      (∀ (dlg : Option String) (w : World), (file_print_pdf dlg w).tree = w.tree) := by
  intro txt
  refine ⟨rfl, ?_, save_loop_tree, maybe_save_tree, ?_, ?_, ?_⟩
  · intro dlg env w w2 h
    unfold file_open at h
    cases dlg with
    | none =>
      simp only [Except.ok.injEq] at h
      rw [← h]
    | some fn =>
      cases hl : load env fn w.ed with
      | error e => simp [hl] at h
      | ok p =>
        obtain ⟨ed2, b⟩ := p
        cases b <;> simp only [hl, Except.ok.injEq] at h <;> rw [← h]
  · intro fuel choice dlg writeOk w b w2 h
    unfold closeEvent at h
    cases hms : maybe_save fuel choice dlg writeOk w with
    | none => simp [hms] at h
    | some p =>
      obtain ⟨b0, w0⟩ := p
      simp only [hms, Option.some.injEq, Prod.mk.injEq] at h
      rw [← h.2]
      exact maybe_save_tree fuel choice dlg writeOk w b0 w0 hms
  · intro fuel choice dlg writeOk w w2 h
    unfold file_new at h
    cases hms : maybe_save fuel choice dlg writeOk w with
    | none => simp [hms] at h
    | some p =>
      obtain ⟨b0, w0⟩ := p
      have ht := maybe_save_tree fuel choice dlg writeOk w b0 w0 hms
      cases b0 <;> simp only [hms, Option.some.injEq] at h <;> rw [← h] <;> exact ht
  · intro dlg w
    cases dlg <;> rfl

/-- Witness for C8: the initial tree of a concrete start-up, and a concrete
unsaved-changes prompt round trip that leaves the tree alone. -/
theorem claim_C8_tree_lifecycle_witness :
    (initWorld "line1").tree = TreeModel.make ["Notes"] "line1" ∧
    maybe_save 1 MBChoice.discard none true (initWorld "line1") =
      some (true, initWorld "line1") ∧
    (initWorld "line1").tree = (initWorld "line1").tree := by
  refine ⟨(claim_C8_tree_lifecycle "line1").1, rfl, ?_⟩
  exact (claim_C8_tree_lifecycle "line1").2.2.2.1 1 MBChoice.discard none true
    (initWorld "line1") true (initWorld "line1") rfl

/-! ## Invariants of the note-tree model (claim C7) -/

theorem uniformList_iff (c : Nat) (ts : List TreeItem) :
    TreeItem.uniformList c ts = true ↔ ∀ t ∈ ts, TreeItem.uniform c t = true := by
  induction ts with
  | nil => simp [TreeItem.uniformList]
  | cons t ts ih => simp [TreeItem.uniformList, ih]

theorem uniform_node_iff (c : Nat) (d : List (Option String)) (cs : List TreeItem) :
    TreeItem.uniform c (TreeItem.node d cs) = true ↔
      d.length = c ∧ TreeItem.uniformList c cs = true := by
  simp [TreeItem.uniform]

theorem uniform_columnCount {c : Nat} {t : TreeItem}
    (h : TreeItem.uniform c t = true) : t.columnCount = c := by
  cases t with
  | node d cs => exact ((uniform_node_iff c d cs).1 h).1

theorem uniformList_set {c : Nat} {ts : List TreeItem} {x : TreeItem} (i : Nat)
    (h : TreeItem.uniformList c ts = true) (hx : TreeItem.uniform c x = true) :
    TreeItem.uniformList c (ts.set i x) = true := by
  rw [uniformList_iff] at h ⊢
  intro t ht
  rcases List.mem_or_eq_of_mem_set ht with h1 | rfl
  · exact h t h1
  · exact hx

/-- `modifyAt` preserves any column-count invariant its payload preserves. -/
theorem modifyAt_uniform : ∀ (path : List Nat) (f : TreeItem → Option TreeItem)
    (root root' : TreeItem) (c : Nat),
    TreeItem.uniform c root = true →
    (∀ t t', TreeItem.uniform c t = true → f t = some t' →
      TreeItem.uniform c t' = true) →
    TreeItem.modifyAt path f root = some root' →
    TreeItem.uniform c root' = true := by
  intro path
  induction path with
  | nil =>
    intro f root root' c h hf hm
    exact hf root root' h hm
  | cons i rest ih =>
    intro f root root' c h hf hm
    cases root with
    | node d cs =>
      simp only [TreeItem.modifyAt] at hm
      cases hc : cs[i]? with
      | none => simp [hc] at hm
      | some c0 =>
        rw [hc, Option.map_eq_some'] at hm
        obtain ⟨c1, h1, h2⟩ := hm
        subst h2
        obtain ⟨hd, hcs⟩ := (uniform_node_iff c d cs).1 h
        have hx : TreeItem.uniform c c0 = true :=
          (uniformList_iff c cs).1 hcs c0 (List.getElem?_mem hc)
        exact (uniform_node_iff c d _).2
          ⟨hd, uniformList_set i hcs (ih f c0 c1 c hx hf h1)⟩

theorem sizeList_append (as bs : List TreeItem) :
    TreeItem.sizeList (as ++ bs) = TreeItem.sizeList as + TreeItem.sizeList bs := by
  induction as with
  | nil => simp [TreeItem.sizeList]
  | cons t ts ih =>
    simp only [List.cons_append, TreeItem.sizeList, List.append_eq, ih]
    omega

theorem sizeList_set : ∀ (cs : List TreeItem) (i : Nat) (x c0 : TreeItem),
    cs[i]? = some c0 →
    TreeItem.sizeList (cs.set i x) + TreeItem.size c0 =
      TreeItem.sizeList cs + TreeItem.size x := by
  intro cs
  induction cs with
  | nil =>
    intro i x c0 h
    simp at h
  | cons a as ih =>
    intro i x c0 h
    cases i with
    | zero =>
      simp only [List.getElem?_cons_zero, Option.some.injEq] at h
      subst h
      simp only [List.set_cons_zero, TreeItem.sizeList]
      omega
    | succ j =>
      simp only [List.getElem?_cons_succ] at h
      have := ih j x c0 h
      simp only [List.set_cons_succ, TreeItem.sizeList]
      omega

/-- Successful `modifyAt` decomposed: the item the path addresses, the
payload result that replaced it, the same lookup in the rebuilt tree, and
the size bookkeeping (every node outside the addressed subtree is kept). -/
theorem modifyAt_spec : ∀ (path : List Nat) (f : TreeItem → Option TreeItem)
    (root root' : TreeItem),
    TreeItem.modifyAt path f root = some root' →
    ∃ t t', TreeItem.getItem path root = some t ∧ f t = some t' ∧
      TreeItem.getItem path root' = some t' ∧
      TreeItem.size root' + TreeItem.size t =
        TreeItem.size root + TreeItem.size t' := by
  intro path
  induction path with
  | nil =>
    intro f root root' h
    exact ⟨root, root', rfl, h, rfl, by omega⟩
  | cons i rest ih =>
    intro f root root' h
    cases root with
    | node d cs =>
      simp only [TreeItem.modifyAt] at h
      cases hc : cs[i]? with
      | none => simp [hc] at h
      | some c0 =>
        rw [hc, Option.map_eq_some'] at h
        obtain ⟨c1, h1, h2⟩ := h
        subst h2
        obtain ⟨t, t', hg, hf, hg', hs⟩ := ih f c0 c1 h1
        have hlt : i < cs.length := by
          rcases List.getElem?_eq_some.1 hc with ⟨hh, -⟩
          exact hh
        refine ⟨t, t', ?_, hf, ?_, ?_⟩
        · simp [TreeItem.getItem, hc, hg]
        · have hset : (cs.set i c1)[i]? = some c1 := by
            simp [List.getElem?_set_self, hlt]
          simp [TreeItem.getItem, hset, hg']
        · have hsz := sizeList_set cs i c1 c0 hc
          simp only [TreeItem.size]
          omega

/-- A valid lookup plus a succeeding payload make `modifyAt` succeed. -/
theorem getItem_modifyAt_isSome : ∀ (path : List Nat) (root t : TreeItem)
    (f : TreeItem → Option TreeItem) (t' : TreeItem),
    TreeItem.getItem path root = some t → f t = some t' →
    ∃ root', TreeItem.modifyAt path f root = some root' := by
  intro path
  induction path with
  | nil =>
    intro root t f t' hg hf
    simp only [TreeItem.getItem, Option.some.injEq] at hg
    subst hg
    exact ⟨t', by simpa [TreeItem.modifyAt] using hf⟩
  | cons i rest ih =>
    intro root t f t' hg hf
    cases root with
    | node d cs =>
      simp only [TreeItem.getItem] at hg
      cases hc : cs[i]? with
      | none => simp [hc] at hg
      | some c0 =>
        rw [hc] at hg
        obtain ⟨r', hr'⟩ := ih c0 t f t' hg hf
        exact ⟨TreeItem.node d (cs.set i r'), by
          simp [TreeItem.modifyAt, hc, hr']⟩

theorem pyInsert_length (i : Nat) (x : α) (l : List α) :
    (pyInsert i x l).length = l.length + 1 := by
  simp only [pyInsert, List.length_append, List.length_take, List.length_cons,
    List.length_drop]
  omega

mutual

theorem insertColumnRec_uniform : ∀ (p c : Nat) (t : TreeItem), p ≤ c →
    TreeItem.uniform c t = true →
    TreeItem.uniform (c + 1) (TreeItem.insertColumnRec p t) = true
  | p, c, .node d cs, hp, h => by
    obtain ⟨hd, hcs⟩ := (uniform_node_iff c d cs).1 h
    have hlen : p ≤ d.length := by omega
    have hrw : TreeItem.insertColumnRec p (.node d cs) =
        .node (pyInsert p none d) (TreeItem.insertColumnRecList p cs) := by
      simp [TreeItem.insertColumnRec, hlen]
    rw [hrw]
    refine (uniform_node_iff _ _ _).2 ⟨?_, insertColumnRecList_uniform p c cs hp hcs⟩
    rw [pyInsert_length]
    omega

theorem insertColumnRecList_uniform : ∀ (p c : Nat) (ts : List TreeItem), p ≤ c →
    TreeItem.uniformList c ts = true →
    TreeItem.uniformList (c + 1) (TreeItem.insertColumnRecList p ts) = true
  | p, c, [], _, _ => by
    simp [TreeItem.insertColumnRecList, TreeItem.uniformList]
  | p, c, t :: ts, hp, h => by
    simp only [TreeItem.uniformList, Bool.and_eq_true] at h
    simp only [TreeItem.insertColumnRecList, TreeItem.uniformList, Bool.and_eq_true]
    exact ⟨insertColumnRec_uniform p c t hp h.1,
      insertColumnRecList_uniform p c ts hp h.2⟩

end

mutual

theorem removeColumnRec_uniform : ∀ (p c : Nat) (t : TreeItem), p < c →
    TreeItem.uniform c t = true →
    TreeItem.uniform (c - 1) (TreeItem.removeColumnRec p t) = true
  | p, c, .node d cs, hp, h => by
    obtain ⟨hd, hcs⟩ := (uniform_node_iff c d cs).1 h
    have hlen : p < d.length := by omega
    have hrw : TreeItem.removeColumnRec p (.node d cs) =
        .node (d.take p ++ d.drop (p + 1)) (TreeItem.removeColumnRecList p cs) := by
      simp [TreeItem.removeColumnRec, hlen]
    rw [hrw]
    refine (uniform_node_iff _ _ _).2 ⟨?_, removeColumnRecList_uniform p c cs hp hcs⟩
    simp only [List.length_append, List.length_take, List.length_drop]
    omega

theorem removeColumnRecList_uniform : ∀ (p c : Nat) (ts : List TreeItem), p < c →
    TreeItem.uniformList c ts = true →
    TreeItem.uniformList (c - 1) (TreeItem.removeColumnRecList p ts) = true
  | p, c, [], _, _ => by
    simp [TreeItem.removeColumnRecList, TreeItem.uniformList]
  | p, c, t :: ts, hp, h => by
    simp only [TreeItem.uniformList, Bool.and_eq_true] at h
    simp only [TreeItem.removeColumnRecList, TreeItem.uniformList, Bool.and_eq_true]
    exact ⟨removeColumnRec_uniform p c t hp h.1,
      removeColumnRecList_uniform p c ts hp h.2⟩

end

theorem mem_pyInsert {x y : α} {l : List α} {i : Nat} (h : x ∈ pyInsert i y l) :
    x = y ∨ x ∈ l := by
  simp only [pyInsert, List.mem_append, List.mem_cons] at h
  rcases h with h | h | h
  · exact Or.inr (List.take_subset i l h)
  · exact Or.inl h
  · exact Or.inr (List.drop_subset i l h)

theorem uniform_fresh_row (c : Nat) :
    TreeItem.uniform c (TreeItem.node (List.replicate c none) []) = true := by
  refine (uniform_node_iff _ _ _).2 ⟨List.length_replicate c none, ?_⟩
  simp [TreeItem.uniformList]

theorem insertRowAt_uniform {c : Nat} {root root' : TreeItem} {path : List Nat}
    {pos : Nat} (h : TreeItem.uniform c root = true)
    (hm : TreeModel.insertRowAt root path pos c = some root') :
    TreeItem.uniform c root' = true := by
  refine modifyAt_uniform path _ root root' c h ?_ hm
  intro t t' ht hf
  by_cases hb : pos ≤ t.childCount
  · rw [if_pos hb, Option.some.injEq] at hf
    subst hf
    cases t with
    | node d cs =>
      obtain ⟨hd, hcs⟩ := (uniform_node_iff c d cs).1 ht
      refine (uniform_node_iff _ _ _).2 ⟨hd, (uniformList_iff _ _).2 ?_⟩
      intro u hu
      rcases mem_pyInsert hu with rfl | hu2
      · exact uniform_fresh_row c
      · exact (uniformList_iff _ _).1 hcs u hu2
  · rw [if_neg hb] at hf
    exact absurd hf (by simp)

theorem removeRowAt_uniform {c : Nat} {root root' : TreeItem} {path : List Nat}
    {pos : Nat} (h : TreeItem.uniform c root = true)
    (hm : TreeModel.removeRowAt root path pos = some root') :
    TreeItem.uniform c root' = true := by
  refine modifyAt_uniform path _ root root' c h ?_ hm
  intro t t' ht hf
  by_cases hb : pos + 1 ≤ t.childCount
  · rw [if_pos hb, Option.some.injEq] at hf
    subst hf
    cases t with
    | node d cs =>
      obtain ⟨hd, hcs⟩ := (uniform_node_iff c d cs).1 ht
      refine (uniform_node_iff _ _ _).2 ⟨hd, (uniformList_iff _ _).2 ?_⟩
      intro u hu
      rcases List.mem_append.1 hu with hu2 | hu2
      · exact (uniformList_iff _ _).1 hcs u (List.take_subset _ _ hu2)
      · exact (uniformList_iff _ _).1 hcs u (List.drop_subset _ _ hu2)
  · rw [if_neg hb] at hf
    exact absurd hf (by simp)

theorem setDataAt_uniform {c : Nat} (root : TreeItem) (path : List Nat)
    (col : Nat) (v : Option String) (h : TreeItem.uniform c root = true) :
    TreeItem.uniform c (TreeModel.setDataAt root path col v) = true := by
  unfold TreeModel.setDataAt
  cases hm : TreeItem.modifyAt path
      (fun t => some (TreeItem.node (t.data.set col v) t.children)) root with
  | none => simpa using h
  | some r =>
    simp only [Option.getD_some]
    refine modifyAt_uniform path _ root r c h ?_ hm
    intro t t' ht hf
    rw [Option.some.injEq] at hf
    subst hf
    cases t with
    | node d cs =>
      obtain ⟨hd, hcs⟩ := (uniform_node_iff c d cs).1 ht
      exact (uniform_node_iff _ _ _).2 ⟨by simpa using hd, hcs⟩

theorem setHeaderData_uniform {c : Nat} (root : TreeItem) (col : Nat)
    (v : Option String) (h : TreeItem.uniform c root = true) :
    TreeItem.uniform c (TreeModel.setHeaderData root col v) = true := by
  cases root with
  | node d cs =>
    obtain ⟨hd, hcs⟩ := (uniform_node_iff c d cs).1 h
    exact (uniform_node_iff _ _ _).2 ⟨by simpa [TreeModel.setHeaderData] using hd, hcs⟩

theorem setNoDataUpTo_uniform {c : Nat} (root : TreeItem) (path : List Nat) :
    ∀ (n : Nat), TreeItem.uniform c root = true →
    TreeItem.uniform c (setNoDataUpTo root path n) = true := by
  intro n
  induction n with
  | zero => exact fun h => h
  | succ k ih =>
    intro h
    exact setDataAt_uniform _ _ _ _ (ih h)

theorem childColumnsUpTo_uniform {c : Nat} (root : TreeItem) (path : List Nat) :
    ∀ (n : Nat), TreeItem.uniform c root = true →
    TreeItem.uniform c (childColumnsUpTo root path n) = true := by
  intro n
  induction n with
  | zero => exact fun h => h
  | succ k ih =>
    intro h
    have h1 := setDataAt_uniform (childColumnsUpTo root path k) path k
      (some "[No data]") (ih h)
    simp only [childColumnsUpTo]
    unfold childColumnStep
    dsimp only
    split
    · exact setHeaderData_uniform _ _ _ h1
    · exact h1

theorem insertColumn_uniform {c p : Nat} {root root' : TreeItem}
    (h : TreeItem.uniform c root = true)
    (hm : TreeModel.insertColumn p root = some root') :
    TreeItem.uniform (c + 1) root' = true := by
  unfold TreeModel.insertColumn at hm
  split at hm
  next hcond =>
    rw [Option.some.injEq] at hm
    subst hm
    have hcc := uniform_columnCount h
    exact insertColumnRec_uniform p c root (by omega) h
  next => exact absurd hm (by simp)

theorem removeColumn_uniform {c p : Nat} {root root' : TreeItem}
    (h : TreeItem.uniform c root = true)
    (hm : TreeModel.removeColumn p root = some root') :
    TreeItem.uniform (c - 1) root' = true := by
  unfold TreeModel.removeColumn at hm
  split at hm
  next hcond =>
    rw [Option.some.injEq] at hm
    subst hm
    have hcc := uniform_columnCount h
    exact removeColumnRec_uniform p c root (by omega) h
  next => exact absurd hm (by simp)

/-- Every single UI-triggered tree operation keeps the tree's column count
uniform (for some possibly shifted count). -/
theorem applyTreeOp_uniform (op : TreeOp) (t : TreeItem) (c : Nat)
    (h : TreeItem.uniform c t = true) :
    ∃ c2, TreeItem.uniform c2 (applyTreeOp op t) = true := by
  have hcc := uniform_columnCount h
  cases op with
  | insertRowOp cur =>
    refine ⟨c, ?_⟩
    unfold applyTreeOp TextEdit.insert_row
    dsimp only
    cases hm : TreeModel.insertRowAt t cur.parentPath cur.rowPlusOne t.columnCount with
    | none => exact h
    | some root1 =>
      rw [hcc] at hm
      exact setNoDataUpTo_uniform _ _ _ (insertRowAt_uniform h hm)
  | insertColumnOp cur =>
    unfold applyTreeOp TextEdit.insert_column
    dsimp only
    cases hm : TreeModel.insertColumn (if cur.path.isEmpty = true then 0 else cur.col + 1) t with
    | none => exact ⟨c, h⟩
    | some root1 =>
      exact ⟨c + 1, setHeaderData_uniform _ _ _ (insertColumn_uniform h hm)⟩
  | insertChildOp cur =>
    unfold applyTreeOp TextEdit.insert_child
    dsimp only
    by_cases h0 : t.columnCount = 0
    · rw [if_pos h0]
      cases hic : TreeModel.insertColumn 0 t with
      | none =>
        exact absurd hic (by simp [TreeModel.insertColumn])
      | some root1 =>
        dsimp only
        have h1 : TreeItem.uniform (c + 1) root1 = true := insertColumn_uniform h hic
        have hcc1 : root1.columnCount = c + 1 := uniform_columnCount h1
        cases hm : TreeModel.insertRowAt root1 cur.path 0 root1.columnCount with
        | none => exact ⟨c + 1, h1⟩
        | some root2 =>
          rw [hcc1] at hm
          exact ⟨c + 1, childColumnsUpTo_uniform _ _ _ (insertRowAt_uniform h1 hm)⟩
    · rw [if_neg h0]
      dsimp only
      cases hm : TreeModel.insertRowAt t cur.path 0 t.columnCount with
      | none => exact ⟨c, h⟩
      | some root2 =>
        rw [hcc] at hm
        exact ⟨c, childColumnsUpTo_uniform _ _ _ (insertRowAt_uniform h hm)⟩
  | removeRowOp cur =>
    refine ⟨c, ?_⟩
    unfold applyTreeOp TextEdit.remove_row
    dsimp only
    cases hl : cur.path.getLast? with
    | none => exact h
    | some r =>
      cases hm : TreeModel.removeRowAt t cur.path.dropLast r with
      | none => simp only [hm, Option.getD_none]; exact h
      | some root' => simp only [hm, Option.getD_some]; exact removeRowAt_uniform h hm
  | removeColumnOp cur =>
    unfold applyTreeOp TextEdit.remove_column
    dsimp only
    cases hp : cur.path.isEmpty with
    | true => exact ⟨c, by simpa using h⟩
    | false =>
      simp only [Bool.false_eq_true, if_neg]
      cases hm : TreeModel.removeColumn cur.col t with
      | none => exact ⟨c, by simpa using h⟩
      | some root' =>
        exact ⟨c - 1, by simpa using removeColumn_uniform h hm⟩

/-- Every sequence of UI-triggered tree operations keeps the tree's column
count uniform. -/
theorem applyTreeOps_uniform : ∀ (ops : List TreeOp) (t : TreeItem) (c : Nat),
    TreeItem.uniform c t = true →
    ∃ c2, TreeItem.uniform c2 (applyTreeOps ops t) = true := by
  intro ops
  induction ops with
  | nil => exact fun t c h => ⟨c, h⟩
  | cons op rest ih =>
    intro t c h
    obtain ⟨c1, h1⟩ := applyTreeOp_uniform op t c h
    exact ih (applyTreeOp op t) c1 h1

theorem sizeList_remove : ∀ (cs : List TreeItem) (r : Nat) (child : TreeItem),
    cs[r]? = some child →
    TreeItem.sizeList (cs.take r ++ cs.drop (r + 1)) + TreeItem.size child =
      TreeItem.sizeList cs := by
  intro cs
  induction cs with
  | nil =>
    intro r child h
    simp at h
  | cons a as ih =>
    intro r child h
    cases r with
    | zero =>
      simp only [List.getElem?_cons_zero, Option.some.injEq] at h
      subst h
      simp only [List.take_zero, List.nil_append, List.drop_succ_cons,
        List.drop_zero, TreeItem.sizeList]
      omega
    | succ j =>
      simp only [List.getElem?_cons_succ] at h
      have hj := ih j child h
      simp only [List.take_succ_cons, List.drop_succ_cons, List.cons_append,
        TreeItem.sizeList, List.append_eq]
      omega

theorem pyInsert_getElem?_lt {l : List α} {x : α} {pos i : Nat}
    (hpos : pos ≤ l.length) (h : i < pos) :
    (pyInsert pos x l)[i]? = l[i]? := by
  have ht : i < (l.take pos).length := by
    simp only [List.length_take]
    omega
  rw [pyInsert, List.getElem?_append_left ht]
  simp [List.getElem?_take, h]

theorem pyInsert_getElem?_self {l : List α} {x : α} {pos : Nat}
    (hpos : pos ≤ l.length) :
    (pyInsert pos x l)[pos]? = some x := by
  have hlen : (l.take pos).length = pos := by
    simp only [List.length_take]
    omega
  rw [pyInsert, List.getElem?_append_right (by rw [hlen])]
  rw [hlen, Nat.sub_self]
  simp

theorem pyInsert_getElem?_ge {l : List α} {x : α} {pos i : Nat}
    (hpos : pos ≤ l.length) (h : pos ≤ i) :
    (pyInsert pos x l)[i + 1]? = l[i]? := by
  have hlen : (l.take pos).length = pos := by
    simp only [List.length_take]
    omega
  rw [pyInsert, List.getElem?_append_right (by rw [hlen]; omega)]
  rw [hlen]
  have h2 : i + 1 - pos = (i - pos) + 1 := by omega
  rw [h2, List.getElem?_cons_succ, List.getElem?_drop]
  have h3 : pos + (i - pos) = i := by omega
  rw [h3]

theorem removeSlice_getElem?_lt {l : List α} {r i : Nat}
    (hr : r < l.length) (h : i < r) :
    (l.take r ++ l.drop (r + 1))[i]? = l[i]? := by
  have ht : i < (l.take r).length := by
    simp only [List.length_take]
    omega
  rw [List.getElem?_append_left ht]
  simp [List.getElem?_take, h]

theorem removeSlice_getElem?_ge {l : List α} {r i : Nat}
    (hr : r < l.length) (h : r ≤ i) :
    (l.take r ++ l.drop (r + 1))[i]? = l[i + 1]? := by
  have hlen : (l.take r).length = r := by
    simp only [List.length_take]
    omega
  rw [List.getElem?_append_right (by rw [hlen]; omega)]
  rw [hlen, List.getElem?_drop]
  have h3 : r + 1 + (i - r) = i + 1 := by omega
  rw [h3]

/-- Removing a row: the operation succeeds on a valid index, the removed
child's whole subtree leaves with it (size bookkeeping), and the remaining
sibling rows shift down contiguously. -/
theorem removeRowAt_spec (root : TreeItem) (parentPath : List Nat) (r : Nat)
    (parent child : TreeItem)
    (hparent : TreeItem.getItem parentPath root = some parent)
    (hchild : parent.children[r]? = some child) :
    ∃ root', TreeModel.removeRowAt root parentPath r = some root' ∧
      TreeItem.size root' + TreeItem.size child = TreeItem.size root ∧
      ∃ parent2, TreeItem.getItem parentPath root' = some parent2 ∧
        parent2.data = parent.data ∧
        parent2.childCount + 1 = parent.childCount ∧
        (∀ i, i < r → parent2.children[i]? = parent.children[i]?) ∧
        (∀ i, r ≤ i → parent2.children[i]? = parent.children[i + 1]?) := by
  obtain ⟨pd, pcs⟩ := parent
  simp only [TreeItem.children] at hchild
  have hr : r < pcs.length := (List.getElem?_eq_some.1 hchild).1
  have hcond : r + 1 ≤ TreeItem.childCount (TreeItem.node pd pcs) := hr
  have hf : (fun t => if r + 1 ≤ t.childCount then
      some (TreeItem.node t.data (t.children.take r ++ t.children.drop (r + 1)))
      else none) (TreeItem.node pd pcs) =
      some (TreeItem.node pd (pcs.take r ++ pcs.drop (r + 1))) := if_pos hcond
  obtain ⟨root', hroot'⟩ := getItem_modifyAt_isSome parentPath root
    (TreeItem.node pd pcs)
    (fun t => if r + 1 ≤ t.childCount then
      some (TreeItem.node t.data (t.children.take r ++ t.children.drop (r + 1)))
      else none)
    (TreeItem.node pd (pcs.take r ++ pcs.drop (r + 1))) hparent hf
  obtain ⟨t0, t1, hg, hf1, hg', hs⟩ := modifyAt_spec parentPath _ root root' hroot'
  have ht0 : t0 = TreeItem.node pd pcs := Option.some.inj (hg.symm.trans hparent)
  subst ht0
  have ht1 : t1 = TreeItem.node pd (pcs.take r ++ pcs.drop (r + 1)) :=
    Option.some.inj (hf1.symm.trans hf)
  subst ht1
  have hsz := sizeList_remove pcs r child hchild
  refine ⟨root', hroot', ?_, TreeItem.node pd (pcs.take r ++ pcs.drop (r + 1)),
    hg', rfl, ?_, ?_, ?_⟩
  · simp only [TreeItem.size] at hs ⊢
    omega
  · simp only [TreeItem.childCount, TreeItem.children, List.length_append,
      List.length_take, List.length_drop]
    omega
  · intro i hi
    simp only [TreeItem.children]
    exact removeSlice_getElem?_lt hr hi
  · intro i hi
    simp only [TreeItem.children]
    exact removeSlice_getElem?_ge hr hi

/-- Inserting a row: the operation succeeds on a valid position, the fresh
row carries `cols` empty column values, and the existing sibling rows shift
up contiguously. -/
theorem insertRowAt_spec (root : TreeItem) (parentPath : List Nat)
    (pos cols : Nat) (parent : TreeItem)
    (hparent : TreeItem.getItem parentPath root = some parent)
    (hpos : pos ≤ parent.childCount) :
    ∃ root', TreeModel.insertRowAt root parentPath pos cols = some root' ∧
      ∃ parent2, TreeItem.getItem parentPath root' = some parent2 ∧
        parent2.data = parent.data ∧
        parent2.childCount = parent.childCount + 1 ∧
        (∀ i, i < pos → parent2.children[i]? = parent.children[i]?) ∧
        parent2.children[pos]? =
          some (TreeItem.node (List.replicate cols none) []) ∧
        (∀ i, pos ≤ i → parent2.children[i + 1]? = parent.children[i]?) := by
  obtain ⟨pd, pcs⟩ := parent
  simp only [TreeItem.childCount, TreeItem.children] at hpos
  have hf : (fun t => if pos ≤ t.childCount then
      some (TreeItem.node t.data
        (pyInsert pos (TreeItem.node (List.replicate cols none) []) t.children))
      else none) (TreeItem.node pd pcs) =
      some (TreeItem.node pd
        (pyInsert pos (TreeItem.node (List.replicate cols none) []) pcs)) :=
    if_pos hpos
  obtain ⟨root', hroot'⟩ := getItem_modifyAt_isSome parentPath root
    (TreeItem.node pd pcs)
    (fun t => if pos ≤ t.childCount then
      some (TreeItem.node t.data
        (pyInsert pos (TreeItem.node (List.replicate cols none) []) t.children))
      else none)
    (TreeItem.node pd (pyInsert pos (TreeItem.node (List.replicate cols none) []) pcs))
    hparent hf
  obtain ⟨t0, t1, hg, hf1, hg', hs⟩ := modifyAt_spec parentPath _ root root' hroot'
  have ht0 : t0 = TreeItem.node pd pcs := Option.some.inj (hg.symm.trans hparent)
  subst ht0
  have ht1 : t1 = TreeItem.node pd
      (pyInsert pos (TreeItem.node (List.replicate cols none) []) pcs) :=
    Option.some.inj (hf1.symm.trans hf)
  subst ht1
  refine ⟨root', hroot',
    TreeItem.node pd (pyInsert pos (TreeItem.node (List.replicate cols none) []) pcs),
    hg', rfl, ?_, ?_, ?_, ?_⟩
  · simp only [TreeItem.childCount, TreeItem.children, pyInsert_length]
  · intro i hi
    simp only [TreeItem.children]
    exact pyInsert_getElem?_lt hpos hi
  · simp only [TreeItem.children]
    exact pyInsert_getElem?_self hpos
  · intro i hi
    simp only [TreeItem.children]
    exact pyInsert_getElem?_ge hpos hi

/-- Claim C7: under every sequence of the five UI-triggered tree operations
the note-tree model keeps the invariants of a standard hierarchical table —
the column count stays uniform across the tree (hence consistent within
every node's siblings), row indices stay contiguous across inserts and
removes (siblings below an insertion point shift up by one with no gap, and
siblings past a removed row shift down by one), and removing a row removes
the whole subtree of its descendants with it (the tree shrinks by exactly
the removed child's subtree size). -/
theorem claim_C7_tree_invariants :
    (∀ (ops : List TreeOp) (t : TreeItem) (c : Nat),
      TreeItem.uniform c t = true →
      ∃ c2, TreeItem.uniform c2 (applyTreeOps ops t) = true) ∧
    (∀ (root : TreeItem) (parentPath : List Nat) (r : Nat)
      (parent child : TreeItem),
      TreeItem.getItem parentPath root = some parent →
      parent.children[r]? = some child →
      ∃ root', TreeModel.removeRowAt root parentPath r = some root' ∧
        TreeItem.size root' + TreeItem.size child = TreeItem.size root ∧
        ∃ parent2, TreeItem.getItem parentPath root' = some parent2 ∧
          parent2.data = parent.data ∧
          parent2.childCount + 1 = parent.childCount ∧
          (∀ i, i < r → parent2.children[i]? = parent.children[i]?) ∧
          (∀ i, r ≤ i → parent2.children[i]? = parent.children[i + 1]?)) ∧
    (∀ (root : TreeItem) (parentPath : List Nat) (pos cols : Nat)
      (parent : TreeItem),
      TreeItem.getItem parentPath root = some parent →
      pos ≤ parent.childCount →
      ∃ root', TreeModel.insertRowAt root parentPath pos cols = some root' ∧
        ∃ parent2, TreeItem.getItem parentPath root' = some parent2 ∧
          parent2.data = parent.data ∧
          parent2.childCount = parent.childCount + 1 ∧
          (∀ i, i < pos → parent2.children[i]? = parent.children[i]?) ∧
          parent2.children[pos]? =
            some (TreeItem.node (List.replicate cols none) []) ∧
          (∀ i, pos ≤ i → parent2.children[i + 1]? = parent.children[i]?)) :=
  ⟨applyTreeOps_uniform,
    fun root pp r parent child h1 h2 => removeRowAt_spec root pp r parent child h1 h2,
    fun root pp pos cols parent h1 h2 => insertRowAt_spec root pp pos cols parent h1 h2⟩

/-- A small concrete tree for the C7 witness: the invisible root with the
header column, one note with one sub-note. -/
def wTree : TreeItem :=
  TreeItem.node [some "Notes"] [TreeItem.node [some "a"] [TreeItem.node [some "b"] []]]

def wChild : TreeItem :=
  TreeItem.node [some "a"] [TreeItem.node [some "b"] []]

def wOps : List TreeOp :=
  [TreeOp.insertChildOp ⟨[], 0⟩, TreeOp.removeRowOp ⟨[0], 0⟩]

/-- Witness for C7 at a concrete tree and operation sequence. -/
theorem claim_C7_tree_invariants_witness :
    (TreeItem.uniform 1 wTree = true ∧
      ∃ c2, TreeItem.uniform c2 (applyTreeOps wOps wTree) = true) ∧
    (TreeItem.getItem [] wTree = some wTree ∧
      wTree.children[0]? = some wChild ∧
      ∃ root', TreeModel.removeRowAt wTree [] 0 = some root' ∧
        TreeItem.size root' + TreeItem.size wChild = TreeItem.size wTree) ∧
    (0 ≤ wTree.childCount ∧
      ∃ root', TreeModel.insertRowAt wTree [] 0 1 = some root') := by
  have hu : TreeItem.uniform 1 wTree = true := by
    simp [wTree, TreeItem.uniform, TreeItem.uniformList]
  have hg : TreeItem.getItem [] wTree = some wTree := rfl
  have hc : wTree.children[0]? = some wChild := rfl
  refine ⟨⟨hu, claim_C7_tree_invariants.1 wOps wTree 1 hu⟩,
    ⟨hg, hc, ?_⟩, ⟨Nat.zero_le _, ?_⟩⟩
  · obtain ⟨root', h1, h2, -⟩ :=
      claim_C7_tree_invariants.2.1 wTree [] 0 wTree wChild hg hc
    exact ⟨root', h1, h2⟩
  · obtain ⟨root', h1, -⟩ :=
      claim_C7_tree_invariants.2.2 wTree [] 0 1 wTree hg (Nat.zero_le _)
    exact ⟨root', h1⟩
